import Mathlib

/-!
# Shallow embedding of the TEAMGETHER team-formation backend

This file embeds the core team-formation state machine of the repository
(`main.py`, `models.py`, `schemas.py`) in Lean and proves the specified
properties about it.

Modelling conventions:
* The SQLAlchemy tables of `models.py` become lists of rows inside a `DB`
  structure; `db.add` appends a row, `.first()` is `List.find?`,
  `.count()` is `List.countP`, `.delete()` on a query is `List.filter`
  with the negated predicate, and mutating the object returned by
  `.first()` is `updateFirst` (update the first matching row).
* Autoincrement primary keys (`Competition.pid`, `Team.tid`) are modelled
  by `nextPid` / `nextTid` counters in the state.
* Python `int` is `Int`, `str` is `String`, and `datetime.date` is `Int`
  (a day number; only its ordering is used).  Python's floor division
  `//` is `Int.ediv`, which agrees with floor division whenever the
  divisor is positive, the only situation in which the code divides.
* `date.today()` is passed in as an explicit `today` parameter to the two
  operations that read the clock.
* Each endpoint handler becomes a function `DB → ... → Except Err DB`;
  raising `HTTPException` is returning `Except.error` with the error kind
  of the specification's taxonomy that corresponds to that raise site.
  Password hashing is an external collaborator excluded from the core and
  is modelled as storing the given password unchanged; no property here
  depends on it.
-/

namespace TeamMaker

/-- `models.py`: the `users` table row. -/
structure User where
  student_id : String
  password : String
  name : String
  phone_number : String
  main_language : String
  mbti : String
  career : String
  gender : String
  intro : String
deriving DecidableEq

/-- `models.py`: the `competitions` table row (`pid` is autoincrement). -/
structure Competition where
  pid : Nat
  title : String
  host : String
  apply_date : Int
  match_start : Int
  match_end : Int
  min_members : Int
  max_members : Int
deriving DecidableEq

/-- `schemas.py`: `CompetitionCreate` — the request body used by both
`create_competition` and `update_competition`; it carries every
`Competition` column except the primary key `pid`. -/
structure CompetitionCreate where
  title : String
  host : String
  apply_date : Int
  match_start : Int
  match_end : Int
  min_members : Int
  max_members : Int
deriving DecidableEq

/-- `models.py`: the `participations` table row. -/
structure Participation where
  student_id : String
  pid : Nat
deriving DecidableEq

/-- `models.py`: the `teams` table row (`tid` is autoincrement). -/
structure Team where
  tid : Nat
  leader_id : String
  pid : Nat
  completed : Bool
deriving DecidableEq

/-- `models.py`: the `members` table row. -/
structure Member where
  tid : Nat
  student_id : String
deriving DecidableEq

/-- `models.py`: the `applications` table row.
`status`: 0 = pending, 1 = accepted, 2 = rejected. -/
structure Application where
  tid : Nat
  student_id : String
  status : Nat
deriving DecidableEq

/-- The database state: one list per table plus the autoincrement
counters. -/
structure DB where
  users : List User
  competitions : List Competition
  participations : List Participation
  teams : List Team
  members : List Member
  applications : List Application
  nextPid : Nat
  nextTid : Nat
deriving DecidableEq

/-- The error taxonomy of the specification (§7); each constructor
corresponds to one kind of `HTTPException` raise site in `main.py`.
`Crash` is an unhandled `AttributeError`: `apply_to_team` and
`accept_team_member` dereference the result of a `Competition` lookup
without a `None` check (`main.py` lines 269–271 and 331–333). -/
inductive Err where
  | NotFound
  | AlreadyExists
  | AlreadyJoined
  | AlreadyApplied
  | DeadlinePassed
  | QuotaExceeded
  | TeamLocked
  | TeamFull
  | InsufficientMembers
  | AlreadyOnTeam
  | LeaderCannotLeave
  | NotMember
  | AlreadyConfirmed
  | Crash
deriving DecidableEq

instance {ε α : Type} [DecidableEq ε] [DecidableEq α] : DecidableEq (Except ε α) := fun x y =>
  match x, y with
  | .ok a, .ok b =>
    if h : a = b then .isTrue (by rw [h]) else .isFalse (by simp [h])
  | .error e, .error f =>
    if h : e = f then .isTrue (by rw [h]) else .isFalse (by simp [h])
  | .ok _, .error _ => .isFalse (by simp)
  | .error _, .ok _ => .isFalse (by simp)

/-- Update the first element satisfying `p` by `f` (the model of mutating
the single ORM row returned by `.first()` and committing). -/
def updateFirst (p : α → Bool) (f : α → α) : List α → List α
  | [] => []
  | a :: rest => if p a then f a :: rest else a :: updateFirst p f rest

/-- `db.query(User).filter_by(student_id=sid).first()` -/
def findUser (db : DB) (sid : String) : Option User :=
  db.users.find? (fun u => u.student_id == sid)

/-- `db.query(Competition).filter_by(pid=pid).first()` -/
def findComp (db : DB) (pid : Nat) : Option Competition :=
  db.competitions.find? (fun c => c.pid == pid)

/-- `db.query(Team).filter_by(tid=tid).first()` -/
def findTeam (db : DB) (tid : Nat) : Option Team :=
  db.teams.find? (fun t => t.tid == tid)

/-- `db.query(Participation).filter_by(student_id=sid, pid=pid).first()` -/
def findParticipation (db : DB) (sid : String) (pid : Nat) : Option Participation :=
  db.participations.find? (fun p => p.student_id == sid && p.pid == pid)

/-- `db.query(Application).filter_by(student_id=sid, tid=tid).first()`
(any status). -/
def findApplication (db : DB) (sid : String) (tid : Nat) : Option Application :=
  db.applications.find? (fun a => a.student_id == sid && a.tid == tid)

/-- Matcher for a pending application of `sid` to team `tid`
(`filter_by(tid=tid, student_id=sid, status=0)`). -/
def pendingFor (tid : Nat) (sid : String) (a : Application) : Bool :=
  a.tid == tid && a.student_id == sid && a.status == 0

/-- `db.query(Application).filter_by(tid=tid, student_id=sid, status=0).first()` -/
def findPendingApplication (db : DB) (tid : Nat) (sid : String) : Option Application :=
  db.applications.find? (pendingFor tid sid)

/-- The join predicate of
`db.query(Member).join(Team).filter(Team.pid == pid, Member.student_id == sid)`:
member row `m` belongs to user `sid` and to some team of competition
`pid`. -/
def memPred (teams : List Team) (pid : Nat) (sid : String) (m : Member) : Bool :=
  m.student_id == sid && teams.any (fun t => t.tid == m.tid && t.pid == pid)

/-- `... .first()` of the join above is not `None`: the user already holds
a `Member` row in some team of competition `pid`. -/
def memberInComp (db : DB) (pid : Nat) (sid : String) : Bool :=
  db.members.any (memPred db.teams pid sid)

/-- Number of `Member` rows user `sid` holds across the teams of
competition `pid` (the quantity bounded by invariant I2). -/
def memRowCount (db : DB) (pid : Nat) (sid : String) : Nat :=
  db.members.countP (memPred db.teams pid sid)

/-- `db.query(Participation).filter_by(pid=pid).count()` -/
def participationCount (db : DB) (pid : Nat) : Nat :=
  db.participations.countP (fun p => p.pid == pid)

/-- `db.query(Team).filter_by(pid=pid).count()` -/
def teamCount (db : DB) (pid : Nat) : Nat :=
  db.teams.countP (fun t => t.pid == pid)

/-- `db.query(Member).filter_by(tid=tid).count()` -/
def memberCount (db : DB) (tid : Nat) : Nat :=
  db.members.countP (fun m => m.tid == tid)

/-- `signup` (`main.py` 42–60): reject a duplicate student id, otherwise
insert the user row. -/
def signup (db : DB) (u : User) : Except Err DB :=
  if (findUser db u.student_id).isSome then .error .AlreadyExists
  else .ok { db with users := db.users ++ [u] }

/-- `create_competition` (`main.py` 87–93): always inserts, assigning the
autoincrement `pid`. -/
def create_competition (db : DB) (c : CompetitionCreate) : DB :=
  { db with
    competitions := db.competitions ++
      [⟨db.nextPid, c.title, c.host, c.apply_date, c.match_start, c.match_end,
        c.min_members, c.max_members⟩],
    nextPid := db.nextPid + 1 }

/-- `delete_competition` (`main.py` 95–110): cascade-deletes the
competition's participations, its teams and their members and
applications, then the competition itself. -/
def delete_competition (db : DB) (pid : Nat) : Except Err DB :=
  match findComp db pid with
  | none => .error .NotFound
  | some _ =>
    let victims := db.teams.filter (fun t => t.pid == pid)
    .ok { db with
      participations := db.participations.filter (fun p => !(p.pid == pid)),
      members := db.members.filter (fun m => !(victims.any (fun t => t.tid == m.tid))),
      applications := db.applications.filter (fun a => !(victims.any (fun t => t.tid == a.tid))),
      teams := db.teams.filter (fun t => !(t.pid == pid)),
      competitions := db.competitions.filter (fun c => !(c.pid == pid)) }

/-- `update_competition` (`main.py` 117–128): overwrite every non-key
column of the first matching competition row with the request body. -/
def update_competition (db : DB) (pid : Nat) (c : CompetitionCreate) : Except Err DB :=
  match findComp db pid with
  | none => .error .NotFound
  | some _ =>
    .ok { db with
      competitions := updateFirst (fun c0 => c0.pid == pid)
        (fun c0 => ⟨c0.pid, c.title, c.host, c.apply_date, c.match_start,
                    c.match_end, c.min_members, c.max_members⟩)
        db.competitions }

/-- `participate` (`main.py` 131–146): roster join.  The deadline check is
`date.today() > comp.match_start`. -/
def participate (db : DB) (today : Int) (sid : String) (pid : Nat) : Except Err DB :=
  match findUser db sid with
  | none => .error .NotFound
  | some _ =>
  match findComp db pid with
  | none => .error .NotFound
  | some comp =>
  if comp.match_start < today then .error .DeadlinePassed
  else if (findParticipation db sid pid).isSome then .error .AlreadyJoined
  else .ok { db with participations := db.participations ++ [⟨sid, pid⟩] }

/-- `cancel_participation` (`main.py` 148–160): roster leave.  The
deadline check is `date.today() >= comp.match_start`. -/
def cancel_participation (db : DB) (today : Int) (sid : String) (pid : Nat) : Except Err DB :=
  match findParticipation db sid pid with
  | none => .error .NotFound
  | some _ =>
  match findComp db pid with
  | none => .error .NotFound
  | some comp =>
  if comp.match_start ≤ today then .error .DeadlinePassed
  else .ok { db with
    participations := db.participations.eraseP (fun p => p.student_id == sid && p.pid == pid) }

/-- `create_team` (`main.py` 173–206): checks user and competition
existence, cross-team exclusivity, and the team-opening quota rule
(`part_count // comp.min_members <= team_count` and `team_count > 0`,
guarded by `comp.min_members > 0`); on success inserts the team and the
leader's member row. -/
def create_team (db : DB) (sid : String) (pid : Nat) : Except Err DB :=
  match findUser db sid with
  | none => .error .NotFound
  | some _ =>
  match findComp db pid with
  | none => .error .NotFound
  | some comp =>
  if memberInComp db pid sid then .error .AlreadyOnTeam
  else if 0 < comp.min_members ∧
      (Int.ediv (participationCount db pid) comp.min_members ≤ (teamCount db pid : Int) ∧
       0 < teamCount db pid) then .error .QuotaExceeded
  else .ok { db with
    teams := db.teams ++ [⟨db.nextTid, sid, pid, false⟩],
    members := db.members ++ [⟨db.nextTid, sid⟩],
    nextTid := db.nextTid + 1 }

/-- `apply_to_team` (`main.py` 248–278): user and team existence,
completed check, cross-team exclusivity, duplicate-application check
(any status), then the capacity check against `comp.max_members` — where
`comp` is fetched without a `None` check. -/
def apply_to_team (db : DB) (sid : String) (tid : Nat) : Except Err DB :=
  match findUser db sid with
  | none => .error .NotFound
  | some _ =>
  match findTeam db tid with
  | none => .error .NotFound
  | some team =>
  if team.completed then .error .TeamLocked
  else if memberInComp db team.pid sid then .error .AlreadyOnTeam
  else if (findApplication db sid tid).isSome then .error .AlreadyApplied
  else
  match findComp db team.pid with
  | none => .error .Crash
  | some comp =>
  if comp.max_members ≤ (memberCount db tid : Int) then .error .TeamFull
  else .ok { db with applications := db.applications ++ [⟨tid, sid, 0⟩] }

/-- `accept_team_member` (`main.py` 314–351): team existence, completed
check, applicant existence, pending application, capacity, cross-team
exclusivity; on success inserts the member row and flips the pending
application's status to 1 in a single commit. -/
def accept_team_member (db : DB) (tid : Nat) (sid : String) : Except Err DB :=
  match findTeam db tid with
  | none => .error .NotFound
  | some team =>
  if team.completed then .error .TeamLocked
  else
  match findUser db sid with
  | none => .error .NotFound
  | some _ =>
  match findPendingApplication db tid sid with
  | none => .error .NotFound
  | some _ =>
  match findComp db team.pid with
  | none => .error .Crash
  | some comp =>
  if comp.max_members ≤ (memberCount db tid : Int) then .error .TeamFull
  else if memberInComp db team.pid sid then .error .AlreadyOnTeam
  else .ok { db with
    members := db.members ++ [⟨tid, sid⟩],
    applications := updateFirst (pendingFor tid sid) (fun a => { a with status := 1 })
      db.applications }

/-- `reject_team_member` (`main.py` 354–361): flips the first pending
application for the pair to status 2. -/
def reject_team_member (db : DB) (tid : Nat) (sid : String) : Except Err DB :=
  match findPendingApplication db tid sid with
  | none => .error .NotFound
  | some _ =>
    .ok { db with
      applications := updateFirst (pendingFor tid sid) (fun a => { a with status := 2 })
        db.applications }

/-- The state persisted by the FIRST commit of `confirm_project_team`
(`main.py` lines 400–401): `completed` is set on the team, the cascade
has not yet run. -/
def confirm_first_commit (db : DB) (tid : Nat) : DB :=
  { db with
    teams := updateFirst (fun t => t.tid == tid) (fun t => { t with completed := true })
      db.teams }

/-- The SECOND commit of `confirm_project_team` (`main.py` lines
403–404): every application of team `tid` with status 0 is updated to
status 2 (`.update()` touches all matching rows). -/
def confirm_cascade (db : DB) (tid : Nat) : DB :=
  { db with
    applications := db.applications.map
      (fun a => if a.tid == tid && a.status == 0 then { a with status := 2 } else a) }

/-- `confirm_project_team` (`main.py` 384–406): team existence,
`AlreadyConfirmed`, competition existence, minimum-member gate; then the
two commits (completion flag, cascade rejection). -/
def confirm_project_team (db : DB) (tid : Nat) : Except Err DB :=
  match findTeam db tid with
  | none => .error .NotFound
  | some team =>
  if team.completed then .error .AlreadyConfirmed
  else
  match findComp db team.pid with
  | none => .error .NotFound
  | some comp =>
  if (memberCount db tid : Int) < comp.min_members then .error .InsufficientMembers
  else .ok (confirm_cascade (confirm_first_commit db tid) tid)

/-- `leave_project_team` (`main.py` 408–426): team existence, completed
check, leader check, membership check; deletes the member row. -/
def leave_project_team (db : DB) (tid : Nat) (sid : String) : Except Err DB :=
  match findTeam db tid with
  | none => .error .NotFound
  | some team =>
  if team.completed then .error .TeamLocked
  else if team.leader_id == sid then .error .LeaderCannotLeave
  else
  match db.members.find? (fun m => m.tid == tid && m.student_id == sid) with
  | none => .error .NotMember
  | some _ =>
    .ok { db with
      members := db.members.eraseP (fun m => m.tid == tid && m.student_id == sid) }

/-- One state-changing request to the backend (the read-only endpoints do
not change the state and are omitted). -/
inductive Op where
  | signup (u : User)
  | createCompetition (c : CompetitionCreate)
  | deleteCompetition (pid : Nat)
  | updateCompetition (pid : Nat) (c : CompetitionCreate)
  | participate (today : Int) (sid : String) (pid : Nat)
  | cancelParticipation (today : Int) (sid : String) (pid : Nat)
  | createTeam (sid : String) (pid : Nat)
  | applyToTeam (sid : String) (tid : Nat)
  | accept (tid : Nat) (sid : String)
  | reject (tid : Nat) (sid : String)
  | confirm (tid : Nat)
  | leaveTeam (tid : Nat) (sid : String)

/-- Dispatch one request against the current state. -/
def runOp (op : Op) (db : DB) : Except Err DB :=
  match op with
  | .signup u => signup db u
  | .createCompetition c => .ok (create_competition db c)
  | .deleteCompetition pid => delete_competition db pid
  | .updateCompetition pid c => update_competition db pid c
  | .participate today sid pid => participate db today sid pid
  | .cancelParticipation today sid pid => cancel_participation db today sid pid
  | .createTeam sid pid => create_team db sid pid
  | .applyToTeam sid tid => apply_to_team db sid tid
  | .accept tid sid => accept_team_member db tid sid
  | .reject tid sid => reject_team_member db tid sid
  | .confirm tid => confirm_project_team db tid
  | .leaveTeam tid sid => leave_project_team db tid sid

/-- The state after a request: a failed request rolls back (raising
`HTTPException` before the commit leaves the database untouched). -/
def step (db : DB) (op : Op) : DB :=
  match runOp op db with
  | .ok db' => db'
  | .error _ => db

/-- The empty database (fresh schema; autoincrement counters start
at 1, SQLite's first rowid). -/
def emptyDB : DB := ⟨[], [], [], [], [], [], 1, 1⟩

/-- Run a sequence of requests from the empty database. -/
def execTrace (ops : List Op) : DB :=
  ops.foldl step emptyDB

/-- A state is reachable when some request sequence produces it. -/
def Reachable (db : DB) : Prop :=
  ∃ ops : List Op, db = execTrace ops

/-! ## Generic lemmas about `updateFirst` -/

theorem updateFirst_map_key {α β : Type} (p : α → Bool) (f : α → α) (key : α → β)
    (hf : ∀ a, key (f a) = key a) (l : List α) :
    (updateFirst p f l).map key = l.map key := by
  induction l with
  | nil => rfl
  | cons a rest ih =>
    simp only [updateFirst]
    by_cases h : p a
    · simp [h, hf]
    · simp [h, ih]

theorem mem_updateFirst {α : Type} {p : α → Bool} {f : α → α} {l : List α} {x : α}
    (hx : x ∈ updateFirst p f l) : x ∈ l ∨ ∃ a, a ∈ l ∧ p a = true ∧ x = f a := by
  induction l with
  | nil => simp [updateFirst] at hx
  | cons a rest ih =>
    simp only [updateFirst] at hx
    by_cases h : p a
    · simp only [h, if_true] at hx
      rcases List.mem_cons.mp hx with h1 | h1
      · exact Or.inr ⟨a, List.mem_cons_self a rest, h, h1⟩
      · exact Or.inl (List.mem_cons_of_mem a h1)
    · simp only [h, if_false] at hx
      rcases List.mem_cons.mp hx with h1 | h1
      · exact Or.inl (h1 ▸ List.mem_cons_self a rest)
      · rcases ih h1 with h2 | ⟨b, hb, hpb, hxb⟩
        · exact Or.inl (List.mem_cons_of_mem a h2)
        · exact Or.inr ⟨b, List.mem_cons_of_mem a hb, hpb, hxb⟩

theorem mem_updateFirst_of_neg {α : Type} {p : α → Bool} {f : α → α} {l : List α} {x : α}
    (hx : x ∈ l) (hpx : ¬ p x = true) : x ∈ updateFirst p f l := by
  induction l with
  | nil => simp at hx
  | cons a rest ih =>
    rcases List.mem_cons.mp hx with h1 | h1
    · subst h1
      have hfx : p x = false := by simpa using hpx
      simp [updateFirst, hfx]
    · by_cases h : p a
      · simp [updateFirst, h, List.mem_cons_of_mem _ h1]
      · have hfa : p a = false := by simpa using h
        simp only [updateFirst, hfa, Bool.false_eq_true, if_false, List.mem_cons]
        exact Or.inr (ih h1)

theorem updateFirst_any {α : Type} (p : α → Bool) (f : α → α) (q : α → Bool)
    (hq : ∀ a, q (f a) = q a) (l : List α) :
    (updateFirst p f l).any q = l.any q := by
  induction l with
  | nil => rfl
  | cons a rest ih =>
    simp only [updateFirst]
    by_cases h : p a
    · simp [h, hq]
    · simp [h, ih]

theorem updateFirst_find?_self {α : Type} (p : α → Bool) (f : α → α)
    (hf : ∀ a, p (f a) = p a) (l : List α) :
    (updateFirst p f l).find? p = (l.find? p).map f := by
  induction l with
  | nil => rfl
  | cons a rest ih =>
    simp only [updateFirst]
    by_cases h : p a
    · simp [h, List.find?_cons, hf]
    · simp [h, List.find?_cons, ih]

theorem updateFirst_countP {α : Type} (p : α → Bool) (f : α → α) (q : α → Bool)
    (hq : ∀ a, q (f a) = q a) (l : List α) :
    (updateFirst p f l).countP q = l.countP q := by
  induction l with
  | nil => rfl
  | cons a rest ih =>
    simp only [updateFirst]
    by_cases h : p a
    · simp [h, List.countP_cons, hq]
    · simp [h, List.countP_cons, ih]

theorem find?_filter_of_imp {α : Type} {p q : α → Bool} (l : List α)
    (h : ∀ a, p a = true → q a = true) :
    (l.filter q).find? p = l.find? p := by
  induction l with
  | nil => rfl
  | cons a rest ih =>
    by_cases hp : p a
    · have hqa : q a = true := h a hp
      simp [List.filter_cons, hqa, List.find?_cons, hp]
    · by_cases hq : q a
      · simp [List.filter_cons, hq, List.find?_cons, hp, ih]
      · simp [List.filter_cons, hq, List.find?_cons, hp, ih]

theorem find?_append_of_isSome {α : Type} {p : α → Bool} {l₁ l₂ : List α}
    (h : (l₁.find? p).isSome) : (l₁ ++ l₂).find? p = l₁.find? p := by
  rw [List.find?_append]
  cases hf : l₁.find? p with
  | none => rw [hf] at h; simp at h
  | some a => rfl

/-! ## Success-shape lemmas: what each operation's `ok` result looks like,
together with the guards that must have passed. -/

theorem signup_ok {db : DB} {u : User} {db' : DB} (h : signup db u = .ok db') :
    db' = { db with users := db.users ++ [u] } := by
  unfold signup at h
  split at h <;> simp_all

theorem delete_competition_ok {db : DB} {pid : Nat} {db' : DB}
    (h : delete_competition db pid = .ok db') :
    db' = { db with
      participations := db.participations.filter (fun p => !(p.pid == pid)),
      members := db.members.filter
        (fun m => !((db.teams.filter (fun t => t.pid == pid)).any (fun t => t.tid == m.tid))),
      applications := db.applications.filter
        (fun a => !((db.teams.filter (fun t => t.pid == pid)).any (fun t => t.tid == a.tid))),
      teams := db.teams.filter (fun t => !(t.pid == pid)),
      competitions := db.competitions.filter (fun c => !(c.pid == pid)) } := by
  unfold delete_competition at h
  split at h <;> simp_all

theorem update_competition_ok {db : DB} {pid : Nat} {c : CompetitionCreate} {db' : DB}
    (h : update_competition db pid c = .ok db') :
    db' = { db with
      competitions := updateFirst (fun c0 => c0.pid == pid)
        (fun c0 => ⟨c0.pid, c.title, c.host, c.apply_date, c.match_start,
                    c.match_end, c.min_members, c.max_members⟩)
        db.competitions } := by
  unfold update_competition at h
  split at h <;> simp_all

theorem participate_ok {db : DB} {today : Int} {sid : String} {pid : Nat} {db' : DB}
    (h : participate db today sid pid = .ok db') :
    db' = { db with participations := db.participations ++ [⟨sid, pid⟩] } := by
  unfold participate at h
  split at h <;> [simp_all; skip]
  split at h <;> [simp_all; skip]
  split at h <;> [simp_all; skip]
  split at h <;> simp_all

theorem cancel_participation_ok {db : DB} {today : Int} {sid : String} {pid : Nat} {db' : DB}
    (h : cancel_participation db today sid pid = .ok db') :
    db' = { db with
      participations := db.participations.eraseP
        (fun p => p.student_id == sid && p.pid == pid) } := by
  unfold cancel_participation at h
  split at h <;> [simp_all; skip]
  split at h <;> [simp_all; skip]
  split at h <;> simp_all

theorem create_team_ok {db : DB} {sid : String} {pid : Nat} {db' : DB}
    (h : create_team db sid pid = .ok db') :
    ∃ comp, findComp db pid = some comp ∧ memberInComp db pid sid = false ∧
      db' = { db with
        teams := db.teams ++ [⟨db.nextTid, sid, pid, false⟩],
        members := db.members ++ [⟨db.nextTid, sid⟩],
        nextTid := db.nextTid + 1 } := by
  unfold create_team at h
  split at h <;> [simp_all; skip]
  rename_i u hu
  split at h <;> [simp_all; skip]
  rename_i comp hcomp
  refine ⟨comp, hcomp, ?_⟩
  split at h <;> simp_all
  split at h <;> simp_all

theorem apply_to_team_ok {db : DB} {sid : String} {tid : Nat} {db' : DB}
    (h : apply_to_team db sid tid = .ok db') :
    db' = { db with applications := db.applications ++ [⟨tid, sid, 0⟩] } := by
  unfold apply_to_team at h
  split at h <;> [simp_all; skip]
  split at h <;> [simp_all; skip]
  split at h <;> [simp_all; skip]
  split at h <;> [simp_all; skip]
  split at h <;> [simp_all; skip]
  split at h <;> [simp_all; skip]
  split at h <;> simp_all

theorem accept_team_member_ok {db : DB} {tid : Nat} {sid : String} {db' : DB}
    (h : accept_team_member db tid sid = .ok db') :
    ∃ team comp, findTeam db tid = some team ∧ team.completed = false ∧
      findComp db team.pid = some comp ∧
      (memberCount db tid : Int) < comp.max_members ∧
      memberInComp db team.pid sid = false ∧
      db' = { db with
        members := db.members ++ [⟨tid, sid⟩],
        applications := updateFirst (pendingFor tid sid) (fun a => { a with status := 1 })
          db.applications } := by
  unfold accept_team_member at h
  split at h <;> [simp_all; skip]
  rename_i team hteam
  refine ⟨team, ?_⟩
  split at h <;> [simp_all; skip]
  rename_i hcmp
  split at h <;> [simp_all; skip]
  split at h <;> [simp_all; skip]
  split at h <;> [simp_all; skip]
  rename_i comp hcomp
  refine ⟨comp, hteam, by simpa using hcmp, hcomp, ?_⟩
  split at h <;> [simp_all; skip]
  rename_i hfull
  split at h <;> simp_all

theorem confirm_project_team_ok {db : DB} {tid : Nat} {db' : DB}
    (h : confirm_project_team db tid = .ok db') :
    ∃ team comp, findTeam db tid = some team ∧ team.completed = false ∧
      findComp db team.pid = some comp ∧
      comp.min_members ≤ (memberCount db tid : Int) ∧
      db' = confirm_cascade (confirm_first_commit db tid) tid := by
  unfold confirm_project_team at h
  split at h <;> [simp_all; skip]
  rename_i team hteam
  refine ⟨team, ?_⟩
  split at h <;> [simp_all; skip]
  rename_i hcmp
  split at h <;> [simp_all; skip]
  rename_i comp hcomp
  refine ⟨comp, hteam, by simpa using hcmp, hcomp, ?_⟩
  split at h <;> simp_all

theorem reject_team_member_ok {db : DB} {tid : Nat} {sid : String} {db' : DB}
    (h : reject_team_member db tid sid = .ok db') :
    db' = { db with
      applications := updateFirst (pendingFor tid sid) (fun a => { a with status := 2 })
        db.applications } := by
  unfold reject_team_member at h
  split at h <;> simp_all

theorem leave_project_team_ok {db : DB} {tid : Nat} {sid : String} {db' : DB}
    (h : leave_project_team db tid sid = .ok db') :
    db' = { db with
      members := db.members.eraseP (fun m => m.tid == tid && m.student_id == sid) } := by
  unfold leave_project_team at h
  split at h <;> [simp_all; skip]
  split at h <;> [simp_all; skip]
  split at h <;> [simp_all; skip]
  split at h <;> simp_all

/-! ## Bridging lemmas for queries -/

theorem findTeam_mem {db : DB} {tid : Nat} {t : Team} (h : findTeam db tid = some t) :
    t ∈ db.teams ∧ t.tid = tid := by
  refine ⟨List.mem_of_find?_eq_some h, ?_⟩
  have := List.find?_some h
  simpa using this

theorem findComp_mem {db : DB} {pid : Nat} {c : Competition} (h : findComp db pid = some c) :
    c ∈ db.competitions ∧ c.pid = pid := by
  refine ⟨List.mem_of_find?_eq_some h, ?_⟩
  have := List.find?_some h
  simpa using this

theorem memRowCount_eq_zero {db : DB} {pid : Nat} {sid : String}
    (h : memberInComp db pid sid = false) : memRowCount db pid sid = 0 := by
  unfold memberInComp at h
  unfold memRowCount
  rw [List.countP_eq_zero]
  intro a ha
  exact (List.any_eq_false.mp h) a ha

theorem any_tid_eq_false {teams : List Team} {N : Nat} (h : ∀ t ∈ teams, t.tid ≠ N)
    (pid : Nat) : (teams.any fun t => t.tid == N && t.pid == pid) = false := by
  rw [List.any_eq_false]
  intro t ht
  simp [h t ht]

theorem memPred_append_team {teams : List Team} {nt : Team} {pid : Nat} {sid : String}
    {m : Member} (hm : nt.tid ≠ m.tid) :
    memPred (teams ++ [nt]) pid sid m = memPred teams pid sid m := by
  unfold memPred
  have h1 : (nt.tid == m.tid) = false := beq_eq_false_iff_ne.mpr hm
  simp [List.any_append, h1]

/-! ## The reachable-state invariant -/

/-- Structural facts that hold in every reachable database, including the
cross-team exclusivity invariant I2 (`exclusive`): team and competition
primary keys are unique and below the autoincrement counters, member rows
reference existing teams, teams reference existing competitions, and
every user holds at most one `Member` row per competition. -/
structure Inv (db : DB) : Prop where
  teamTidLt : ∀ t ∈ db.teams, t.tid < db.nextTid
  teamTidNodup : (db.teams.map Team.tid).Nodup
  memberFK : ∀ m ∈ db.members, ∃ t ∈ db.teams, t.tid = m.tid
  compPidLt : ∀ c ∈ db.competitions, c.pid < db.nextPid
  compPidNodup : (db.competitions.map Competition.pid).Nodup
  teamCompFK : ∀ t ∈ db.teams, ∃ c ∈ db.competitions, c.pid = t.pid
  exclusive : ∀ pid sid, memRowCount db pid sid ≤ 1

theorem Inv.member_tid_lt {db : DB} (h : Inv db) :
    ∀ m ∈ db.members, m.tid < db.nextTid := by
  intro m hm
  obtain ⟨t, ht, htid⟩ := h.memberFK m hm
  exact htid ▸ h.teamTidLt t ht

theorem Inv.team_unique {db : DB} (h : Inv db) {t1 t2 : Team}
    (h1 : t1 ∈ db.teams) (h2 : t2 ∈ db.teams) (he : t1.tid = t2.tid) : t1 = t2 :=
  List.inj_on_of_nodup_map h.teamTidNodup h1 h2 he

/-- `Inv` only reads the teams, members, competitions and counters; it
transports across any state change that fixes those fields. -/
theorem inv_of_fields {db db' : DB} (h : Inv db)
    (ht : db'.teams = db.teams) (hm : db'.members = db.members)
    (hc : db'.competitions = db.competitions)
    (hnt : db'.nextTid = db.nextTid) (hnp : db'.nextPid = db.nextPid) : Inv db' := by
  refine ⟨?_, ?_, ?_, ?_, ?_, ?_, ?_⟩
  · rw [ht, hnt]; exact h.teamTidLt
  · rw [ht]; exact h.teamTidNodup
  · rw [hm, ht]; exact h.memberFK
  · rw [hc, hnp]; exact h.compPidLt
  · rw [hc]; exact h.compPidNodup
  · rw [ht, hc]; exact h.teamCompFK
  · intro pid sid
    have := h.exclusive pid sid
    unfold memRowCount at this ⊢
    rw [hm, ht]
    exact this

theorem inv_signup {db db' : DB} {u : User} (h : Inv db) (hok : signup db u = .ok db') :
    Inv db' := by
  obtain rfl := signup_ok hok
  exact inv_of_fields h rfl rfl rfl rfl rfl

theorem inv_participate {db db' : DB} {today : Int} {sid : String} {pid : Nat}
    (h : Inv db) (hok : participate db today sid pid = .ok db') : Inv db' := by
  obtain rfl := participate_ok hok
  exact inv_of_fields h rfl rfl rfl rfl rfl

theorem inv_cancel_participation {db db' : DB} {today : Int} {sid : String} {pid : Nat}
    (h : Inv db) (hok : cancel_participation db today sid pid = .ok db') : Inv db' := by
  obtain rfl := cancel_participation_ok hok
  exact inv_of_fields h rfl rfl rfl rfl rfl

theorem inv_apply_to_team {db db' : DB} {sid : String} {tid : Nat}
    (h : Inv db) (hok : apply_to_team db sid tid = .ok db') : Inv db' := by
  obtain rfl := apply_to_team_ok hok
  exact inv_of_fields h rfl rfl rfl rfl rfl

theorem inv_reject {db db' : DB} {tid : Nat} {sid : String}
    (h : Inv db) (hok : reject_team_member db tid sid = .ok db') : Inv db' := by
  obtain rfl := reject_team_member_ok hok
  exact inv_of_fields h rfl rfl rfl rfl rfl

theorem updateFirst_exists_key {α β : Type} (p : α → Bool) (f : α → α) (key : α → β)
    (hf : ∀ a, key (f a) = key a) {l : List α} {a : α} (ha : a ∈ l) :
    ∃ b ∈ updateFirst p f l, key b = key a := by
  induction l with
  | nil => simp at ha
  | cons x rest ih =>
    rcases List.mem_cons.mp ha with h1 | h1
    · subst h1
      by_cases hx : p a
      · refine ⟨f a, ?_, hf a⟩
        simp [updateFirst, hx]
      · refine ⟨a, ?_, rfl⟩
        simp [updateFirst, hx]
    · by_cases hx : p x
      · refine ⟨a, ?_, rfl⟩
        simp [updateFirst, hx, List.mem_cons_of_mem _ h1]
      · obtain ⟨b, hb, hkey⟩ := ih h1
        refine ⟨b, ?_, hkey⟩
        simp only [updateFirst, hx, Bool.false_eq_true, if_false, List.mem_cons,
          eq_false_of_ne_true hx]
        exact Or.inr hb

theorem memPred_mono_teams {teams' teams : List Team} {pid : Nat} {sid : String} {m : Member}
    (hsub : ∀ t ∈ teams', t ∈ teams) (hx : memPred teams' pid sid m = true) :
    memPred teams pid sid m = true := by
  unfold memPred at hx ⊢
  simp only [Bool.and_eq_true, List.any_eq_true] at hx ⊢
  obtain ⟨hs, t, ht, hp⟩ := hx
  exact ⟨hs, t, hsub t ht, hp⟩

theorem inv_create_competition {db : DB} {c : CompetitionCreate} (h : Inv db) :
    Inv (create_competition db c) := by
  unfold create_competition
  refine ⟨h.teamTidLt, h.teamTidNodup, h.memberFK, ?_, ?_, ?_, ?_⟩
  · intro c0 hc0
    rcases List.mem_append.mp hc0 with h1 | h1
    · exact Nat.lt_succ_of_lt (h.compPidLt c0 h1)
    · simp at h1; subst h1; simp
  · rw [List.map_append, List.nodup_append]
    refine ⟨h.compPidNodup, by simp, ?_⟩
    intro a ha hb
    simp at hb
    obtain ⟨c1, hc1, rfl⟩ := List.mem_map.mp ha
    have := h.compPidLt c1 hc1
    omega
  · intro t ht
    obtain ⟨c1, hc1, hp⟩ := h.teamCompFK t ht
    exact ⟨c1, List.mem_append_left _ hc1, hp⟩
  · intro pid sid
    have hx := h.exclusive pid sid
    unfold memRowCount at hx ⊢
    exact hx

theorem inv_update_competition {db db' : DB} {pid : Nat} {c : CompetitionCreate}
    (h : Inv db) (hok : update_competition db pid c = .ok db') : Inv db' := by
  obtain rfl := update_competition_ok hok
  refine ⟨h.teamTidLt, h.teamTidNodup, h.memberFK, ?_, ?_, ?_, ?_⟩
  · intro c0 hc0
    rcases mem_updateFirst hc0 with h1 | ⟨a, ha, _, rfl⟩
    · exact h.compPidLt c0 h1
    · exact h.compPidLt a ha
  · have hmap := updateFirst_map_key (fun c0 : Competition => c0.pid == pid)
      (fun c0 => (⟨c0.pid, c.title, c.host, c.apply_date, c.match_start, c.match_end,
        c.min_members, c.max_members⟩ : Competition)) Competition.pid (fun a => rfl)
      db.competitions
    exact hmap ▸ h.compPidNodup
  · intro t ht
    obtain ⟨c1, hc1, hp⟩ := h.teamCompFK t ht
    obtain ⟨c2, hc2, hkey⟩ := updateFirst_exists_key (fun c0 : Competition => c0.pid == pid)
      (fun c0 => (⟨c0.pid, c.title, c.host, c.apply_date, c.match_start, c.match_end,
        c.min_members, c.max_members⟩ : Competition)) Competition.pid (fun a => rfl) hc1
    exact ⟨c2, hc2, by rw [hkey, hp]⟩
  · intro pid' sid
    have hx := h.exclusive pid' sid
    unfold memRowCount at hx ⊢
    exact hx

theorem inv_confirm {db db' : DB} {tid : Nat}
    (h : Inv db) (hok : confirm_project_team db tid = .ok db') : Inv db' := by
  obtain ⟨team, comp, hteam, hcompl, hcomp, hmin, rfl⟩ := confirm_project_team_ok hok
  unfold confirm_cascade confirm_first_commit
  refine ⟨?_, ?_, ?_, h.compPidLt, h.compPidNodup, ?_, ?_⟩
  · intro t ht
    rcases mem_updateFirst ht with h1 | ⟨a, ha, _, rfl⟩
    · exact h.teamTidLt t h1
    · exact h.teamTidLt a ha
  · have hmap := updateFirst_map_key (fun t : Team => t.tid == tid)
      (fun t => { t with completed := true }) Team.tid (fun a => rfl) db.teams
    exact hmap ▸ h.teamTidNodup
  · intro m hm
    obtain ⟨t, ht, htid⟩ := h.memberFK m hm
    obtain ⟨b, hb, hkey⟩ := updateFirst_exists_key (fun t : Team => t.tid == tid)
      (fun t => { t with completed := true }) Team.tid (fun a => rfl) ht
    exact ⟨b, hb, by rw [hkey, htid]⟩
  · intro t ht
    rcases mem_updateFirst ht with h1 | ⟨a, ha, _, rfl⟩
    · exact h.teamCompFK t h1
    · exact h.teamCompFK a ha
  · intro pid sid
    have hx := h.exclusive pid sid
    unfold memRowCount at hx ⊢
    have hcong : List.countP
        (memPred (updateFirst (fun t => t.tid == tid)
          (fun t => { t with completed := true }) db.teams) pid sid) db.members
        = List.countP (memPred db.teams pid sid) db.members := by
      refine List.countP_congr (fun m _ => ?_)
      unfold memPred
      rw [updateFirst_any (fun t : Team => t.tid == tid)
        (fun t => { t with completed := true })
        (fun t => t.tid == m.tid && t.pid == pid) (fun a => rfl)]
    exact le_trans (le_of_eq hcong) hx

theorem inv_leave {db db' : DB} {tid : Nat} {sid : String}
    (h : Inv db) (hok : leave_project_team db tid sid = .ok db') : Inv db' := by
  obtain rfl := leave_project_team_ok hok
  refine ⟨h.teamTidLt, h.teamTidNodup, ?_, h.compPidLt, h.compPidNodup, h.teamCompFK, ?_⟩
  · intro m hm
    exact h.memberFK m ((List.eraseP_sublist db.members).subset hm)
  · intro pid sid'
    have hx := h.exclusive pid sid'
    unfold memRowCount at hx ⊢
    exact le_trans ((List.eraseP_sublist db.members).countP_le _) hx

theorem inv_create_team {db db' : DB} {sid : String} {pid : Nat}
    (h : Inv db) (hok : create_team db sid pid = .ok db') : Inv db' := by
  obtain ⟨comp, hcomp, hmem, rfl⟩ := create_team_ok hok
  have hmltN : ∀ m ∈ db.members, m.tid ≠ db.nextTid :=
    fun m hm => Nat.ne_of_lt (h.member_tid_lt m hm)
  have htltN : ∀ t ∈ db.teams, t.tid ≠ db.nextTid :=
    fun t ht => Nat.ne_of_lt (h.teamTidLt t ht)
  refine ⟨?_, ?_, ?_, h.compPidLt, h.compPidNodup, ?_, ?_⟩
  · intro t ht
    rcases List.mem_append.mp ht with h1 | h1
    · exact Nat.lt_succ_of_lt (h.teamTidLt t h1)
    · simp at h1; subst h1; simp
  · rw [List.map_append, List.nodup_append]
    refine ⟨h.teamTidNodup, by simp, ?_⟩
    intro a ha hb
    simp at hb
    obtain ⟨t1, ht1, rfl⟩ := List.mem_map.mp ha
    have := h.teamTidLt t1 ht1
    omega
  · intro m hm
    rcases List.mem_append.mp hm with h1 | h1
    · obtain ⟨t, ht, htid⟩ := h.memberFK m h1
      exact ⟨t, List.mem_append_left _ ht, htid⟩
    · simp at h1; subst h1
      exact ⟨⟨db.nextTid, sid, pid, false⟩, List.mem_append_right _ (by simp), rfl⟩
  · intro t ht
    rcases List.mem_append.mp ht with h1 | h1
    · obtain ⟨c1, hc1, hp⟩ := h.teamCompFK t h1
      exact ⟨c1, hc1, hp⟩
    · simp at h1; subst h1
      obtain ⟨hcm, hcp⟩ := findComp_mem hcomp
      exact ⟨comp, hcm, hcp⟩
  · intro pid' sid'
    unfold memRowCount
    rw [List.countP_append]
    have hcong : List.countP
        (memPred (db.teams ++ [⟨db.nextTid, sid, pid, false⟩]) pid' sid') db.members
        = List.countP (memPred db.teams pid' sid') db.members := by
      refine List.countP_congr (fun m hm => ?_)
      rw [memPred_append_team ((hmltN m hm).symm)]
    have hz := any_tid_eq_false htltN pid'
    by_cases hps : pid' = pid ∧ sid' = sid
    · obtain ⟨rfl, rfl⟩ := hps
      have h0 := memRowCount_eq_zero hmem
      unfold memRowCount at h0
      rw [hcong, h0]
      simp only [List.countP_cons, List.countP_nil, Nat.zero_add]
      split <;> simp
    · have hvf : memPred (db.teams ++ [⟨db.nextTid, sid, pid, false⟩]) pid' sid'
          ⟨db.nextTid, sid⟩ = false := by
        unfold memPred
        rcases not_and_or.mp hps with hp | hs
        · have hpb : (pid == pid') = false := beq_eq_false_iff_ne.mpr (fun e => hp e.symm)
          simp [List.any_append, hz, hpb]
        · have hsb : (sid == sid') = false := beq_eq_false_iff_ne.mpr (fun e => hs e.symm)
          simp [hsb]
      rw [hcong]
      simpa [List.countP_cons, hvf] using h.exclusive pid' sid'

theorem inv_accept {db db' : DB} {tid : Nat} {sid : String}
    (h : Inv db) (hok : accept_team_member db tid sid = .ok db') : Inv db' := by
  obtain ⟨team, comp, hteam, hcompl, hcomp, hcount, hmem, rfl⟩ := accept_team_member_ok hok
  obtain ⟨hteam_mem, hteam_tid⟩ := findTeam_mem hteam
  refine ⟨h.teamTidLt, h.teamTidNodup, ?_, h.compPidLt, h.compPidNodup, h.teamCompFK, ?_⟩
  · intro m hm
    rcases List.mem_append.mp hm with h1 | h1
    · exact h.memberFK m h1
    · simp at h1; subst h1
      exact ⟨team, hteam_mem, hteam_tid⟩
  · intro pid' sid'
    unfold memRowCount
    rw [List.countP_append]
    by_cases hval : memPred db.teams pid' sid' ⟨tid, sid⟩ = true
    · unfold memPred at hval
      simp only [Bool.and_eq_true, List.any_eq_true, beq_iff_eq] at hval
      obtain ⟨hsid, t, ht, htid, htpid⟩ := hval
      have hte : t = team := h.team_unique ht hteam_mem (by rw [htid, hteam_tid])
      subst hte
      subst hsid
      subst htpid
      have h0 := memRowCount_eq_zero hmem
      unfold memRowCount at h0
      rw [h0]
      simp only [List.countP_cons, List.countP_nil, Nat.zero_add]
      split <;> simp
    · have hvf : memPred db.teams pid' sid' ⟨tid, sid⟩ = false := eq_false_of_ne_true hval
      simpa [List.countP_cons, hvf] using h.exclusive pid' sid'

theorem inv_delete_competition {db db' : DB} {pid : Nat}
    (h : Inv db) (hok : delete_competition db pid = .ok db') : Inv db' := by
  obtain rfl := delete_competition_ok hok
  refine ⟨?_, ?_, ?_, ?_, ?_, ?_, ?_⟩
  · intro t ht
    exact h.teamTidLt t (List.mem_filter.mp ht).1
  · exact List.Nodup.sublist (List.Sublist.map Team.tid (List.filter_sublist _)) h.teamTidNodup
  · intro m hm
    obtain ⟨hm_mem, hm_keep⟩ := List.mem_filter.mp hm
    obtain ⟨t, ht, htid⟩ := h.memberFK m hm_mem
    refine ⟨t, List.mem_filter.mpr ⟨ht, ?_⟩, htid⟩
    simp only [Bool.not_eq_eq_eq_not, Bool.not_true, beq_eq_false_iff_ne]
    intro hpe
    have hany : (db.teams.filter (fun t0 => t0.pid == pid)).any
        (fun t0 => t0.tid == m.tid) = true := by
      rw [List.any_eq_true]
      exact ⟨t, List.mem_filter.mpr ⟨ht, by simp [hpe]⟩, by simp [htid]⟩
    simp [hany] at hm_keep
  · intro c hc
    exact h.compPidLt c (List.mem_filter.mp hc).1
  · exact List.Nodup.sublist (List.Sublist.map Competition.pid (List.filter_sublist _))
      h.compPidNodup
  · intro t ht
    obtain ⟨ht_mem, ht_keep⟩ := List.mem_filter.mp ht
    obtain ⟨c, hcm, hcp⟩ := h.teamCompFK t ht_mem
    refine ⟨c, List.mem_filter.mpr ⟨hcm, ?_⟩, hcp⟩
    simp only [Bool.not_eq_eq_eq_not, Bool.not_true, beq_eq_false_iff_ne] at ht_keep ⊢
    rw [hcp]
    exact ht_keep
  · intro pid' sid'
    have hx := h.exclusive pid' sid'
    unfold memRowCount at hx ⊢
    calc List.countP (memPred (db.teams.filter (fun t => !(t.pid == pid))) pid' sid')
          (db.members.filter (fun m =>
            !((db.teams.filter (fun t => t.pid == pid)).any (fun t => t.tid == m.tid))))
        ≤ List.countP (memPred (db.teams.filter (fun t => !(t.pid == pid))) pid' sid')
            db.members := (List.filter_sublist _).countP_le _
      _ ≤ List.countP (memPred db.teams pid' sid') db.members :=
          List.countP_mono_left (fun m _ =>
            memPred_mono_teams (fun t ht0 => (List.mem_filter.mp ht0).1))
      _ ≤ 1 := hx

/-- One step preserves the invariant. -/
theorem inv_step {db : DB} (op : Op) (h : Inv db) : Inv (step db op) := by
  cases hrun : runOp op db with
  | error e =>
    have : step db op = db := by simp [step, hrun]
    rwa [this]
  | ok db' =>
    have hs : step db op = db' := by simp [step, hrun]
    rw [hs]
    cases op with
    | signup u => exact inv_signup h hrun
    | createCompetition c =>
      simp only [runOp] at hrun
      obtain rfl : create_competition db c = db' := by
        simpa using hrun
      exact inv_create_competition h
    | deleteCompetition pid => exact inv_delete_competition h hrun
    | updateCompetition pid c => exact inv_update_competition h hrun
    | participate today sid pid => exact inv_participate h hrun
    | cancelParticipation today sid pid => exact inv_cancel_participation h hrun
    | createTeam sid pid => exact inv_create_team h hrun
    | applyToTeam sid tid => exact inv_apply_to_team h hrun
    | accept tid sid => exact inv_accept h hrun
    | reject tid sid => exact inv_reject h hrun
    | confirm tid => exact inv_confirm h hrun
    | leaveTeam tid sid => exact inv_leave h hrun

theorem inv_emptyDB : Inv emptyDB := by
  refine ⟨?_, ?_, ?_, ?_, ?_, ?_, ?_⟩ <;> simp [emptyDB, memRowCount]

theorem inv_foldl : ∀ (ops : List Op) (db : DB), Inv db → Inv (ops.foldl step db)
  | [], _, h => h
  | op :: rest, db, h => inv_foldl rest (step db op) (inv_step op h)

/-- Every reachable state satisfies the invariant. -/
theorem inv_reachable {db : DB} (h : Reachable db) : Inv db := by
  obtain ⟨ops, rfl⟩ := h
  exact inv_foldl ops emptyDB inv_emptyDB

/-! ## The capacity invariant (I4) -/

/-- Every competition row admits at least one member. -/
def MaxPos (db : DB) : Prop := ∀ c ∈ db.competitions, 1 ≤ c.max_members

/-- Capacity invariant I4: no team has more `Member` rows than its
competition's `max_members`. -/
def CapInv (db : DB) : Prop :=
  ∀ t ∈ db.teams, ∀ c, findComp db t.pid = some c →
    (memberCount db t.tid : Int) ≤ c.max_members

/-- Trace condition under which the capacity invariant holds: every
competition is created with `max_members ≥ 1`, and `update_competition`
(which can lower `max_members` below an existing roster with no check)
is not used. -/
def capSafe : Op → Prop
  | .createCompetition c => 1 ≤ c.max_members
  | .updateCompetition _ _ => False
  | _ => True

theorem cap_step {db : DB} (op : Op) (hInv : Inv db) (hmax : MaxPos db) (hcap : CapInv db)
    (hsafe : capSafe op) : MaxPos (step db op) ∧ CapInv (step db op) := by
  cases hrun : runOp op db with
  | error e =>
    have hs : step db op = db := by simp [step, hrun]
    rw [hs]
    exact ⟨hmax, hcap⟩
  | ok db' =>
    have hs : step db op = db' := by simp [step, hrun]
    rw [hs]
    cases op with
    | signup u =>
      obtain rfl := signup_ok hrun
      exact ⟨hmax, hcap⟩
    | participate today sid pid =>
      obtain rfl := participate_ok hrun
      exact ⟨hmax, hcap⟩
    | cancelParticipation today sid pid =>
      obtain rfl := cancel_participation_ok hrun
      exact ⟨hmax, hcap⟩
    | applyToTeam sid tid =>
      obtain rfl := apply_to_team_ok hrun
      exact ⟨hmax, hcap⟩
    | reject tid sid =>
      obtain rfl := reject_team_member_ok hrun
      exact ⟨hmax, hcap⟩
    | updateCompetition pid c => exact absurd hsafe (by simp [capSafe])
    | createCompetition c =>
      simp only [runOp] at hrun
      obtain rfl : create_competition db c = db' := by simpa using hrun
      unfold create_competition
      constructor
      · intro c0 hc0
        rcases List.mem_append.mp hc0 with h1 | h1
        · exact hmax c0 h1
        · simp at h1; subst h1; exact hsafe
      · intro t ht c0 hfind
        obtain ⟨c1, hc1, hp1⟩ := hInv.teamCompFK t ht
        have hsome : (db.competitions.find? (fun c2 => c2.pid == t.pid)).isSome :=
          List.find?_isSome.mpr ⟨c1, hc1, by simp [hp1]⟩
        have : findComp db t.pid = some c0 := by
          unfold findComp
          rw [← find?_append_of_isSome hsome]
          exact hfind
        exact hcap t ht c0 this
    | deleteCompetition pid =>
      obtain rfl := delete_competition_ok hrun
      constructor
      · intro c hc
        exact hmax c (List.mem_filter.mp hc).1
      · intro t ht c hfind
        obtain ⟨htm, htp⟩ := List.mem_filter.mp ht
        have htne : t.pid ≠ pid := by simpa using htp
        have hfind' : findComp db t.pid = some c := by
          unfold findComp
          rw [← find?_filter_of_imp db.competitions
            (p := fun c0 => c0.pid == t.pid) (q := fun c0 => !(c0.pid == pid))]
          · exact hfind
          · intro a ha
            simp only [beq_iff_eq] at ha
            simp [ha, htne]
        have hle : memberCount
            { db with
              participations := db.participations.filter (fun p => !(p.pid == pid)),
              members := db.members.filter (fun m =>
                !((db.teams.filter (fun t0 => t0.pid == pid)).any (fun t0 => t0.tid == m.tid))),
              applications := db.applications.filter (fun a =>
                !((db.teams.filter (fun t0 => t0.pid == pid)).any (fun t0 => t0.tid == a.tid))),
              teams := db.teams.filter (fun t0 => !(t0.pid == pid)),
              competitions := db.competitions.filter (fun c0 => !(c0.pid == pid)) } t.tid
            ≤ memberCount db t.tid := (List.filter_sublist _).countP_le _
        have := hcap t htm c hfind'
        omega
    | createTeam sid pid =>
      obtain ⟨comp, hcomp, hmem, rfl⟩ := create_team_ok hrun
      refine ⟨hmax, ?_⟩
      intro t ht c hfind
      have hfind' : findComp db t.pid = some c := hfind
      rcases List.mem_append.mp ht with h1 | h1
      · have hne : (db.nextTid == t.tid) = false :=
          beq_eq_false_iff_ne.mpr (Nat.ne_of_gt (hInv.teamTidLt t h1))
        have hcnt : memberCount
            { db with
              teams := db.teams ++ [⟨db.nextTid, sid, pid, false⟩],
              members := db.members ++ [⟨db.nextTid, sid⟩],
              nextTid := db.nextTid + 1 } t.tid = memberCount db t.tid := by
          unfold memberCount
          rw [List.countP_append]
          simp [List.countP_cons, hne]
        rw [hcnt]
        exact hcap t h1 c hfind'
      · simp at h1; subst h1
        have hzero : db.members.countP (fun m => m.tid == db.nextTid) = 0 := by
          rw [List.countP_eq_zero]
          intro m hm
          simpa using Nat.ne_of_lt (hInv.member_tid_lt m hm)
        have hcnt : memberCount
            { db with
              teams := db.teams ++ [⟨db.nextTid, sid, pid, false⟩],
              members := db.members ++ [⟨db.nextTid, sid⟩],
              nextTid := db.nextTid + 1 } db.nextTid = 1 := by
          unfold memberCount
          rw [List.countP_append, hzero]
          simp [List.countP_cons]
        rw [hcnt]
        have hcc : c = comp := by
          have : findComp db pid = some c := hfind'
          rw [hcomp] at this
          exact (Option.some_injective _ this).symm
        subst hcc
        obtain ⟨hcm, _⟩ := findComp_mem hcomp
        exact hmax c hcm
    | accept tid sid =>
      obtain ⟨team, comp, hteam, hcompl, hcomp, hcount, hmem2, rfl⟩ := accept_team_member_ok hrun
      obtain ⟨hteam_mem, hteam_tid⟩ := findTeam_mem hteam
      refine ⟨hmax, ?_⟩
      intro t ht c hfind
      have hfind' : findComp db t.pid = some c := hfind
      by_cases hte : t.tid = tid
      · have : t = team := hInv.team_unique ht hteam_mem (hte.trans hteam_tid.symm)
        subst this
        have hcc : c = comp := by
          rw [hcomp] at hfind'
          exact (Option.some_injective _ hfind').symm
        subst hcc
        have hcnt : memberCount
            { db with
              members := db.members ++ [⟨tid, sid⟩],
              applications := updateFirst (pendingFor tid sid)
                (fun a => { a with status := 1 }) db.applications } t.tid
            = memberCount db t.tid + 1 := by
          unfold memberCount
          rw [List.countP_append]
          simp [List.countP_cons, hte]
        rw [hcnt]
        have hcnt2 : memberCount db t.tid = memberCount db tid := by rw [hte]
        push_cast
        omega
      · have hne : ((tid : Nat) == t.tid) = false :=
          beq_eq_false_iff_ne.mpr (fun e => hte e.symm)
        have hcnt : memberCount
            { db with
              members := db.members ++ [⟨tid, sid⟩],
              applications := updateFirst (pendingFor tid sid)
                (fun a => { a with status := 1 }) db.applications } t.tid
            = memberCount db t.tid := by
          unfold memberCount
          rw [List.countP_append]
          simp [List.countP_cons, hne]
        rw [hcnt]
        exact hcap t ht c hfind'
    | confirm tid =>
      obtain ⟨team, comp, hteam, hcompl, hcomp, hmin, rfl⟩ := confirm_project_team_ok hrun
      refine ⟨hmax, ?_⟩
      intro t ht c hfind
      rcases mem_updateFirst ht with h1 | ⟨a, ha, _, rfl⟩
      · exact hcap t h1 c hfind
      · exact hcap a ha c hfind
    | leaveTeam tid sid =>
      obtain rfl := leave_project_team_ok hrun
      refine ⟨hmax, ?_⟩
      intro t ht c hfind
      have hle : memberCount
          { db with
            members := db.members.eraseP (fun m => m.tid == tid && m.student_id == sid) } t.tid
          ≤ memberCount db t.tid := (List.eraseP_sublist _).countP_le _
      have := hcap t ht c hfind
      omega

theorem cap_foldl : ∀ (ops : List Op) (db : DB), Inv db → MaxPos db → CapInv db →
    (∀ op ∈ ops, capSafe op) → MaxPos (ops.foldl step db) ∧ CapInv (ops.foldl step db)
  | [], _, _, hmax, hcap, _ => ⟨hmax, hcap⟩
  | op :: rest, db, hInv, hmax, hcap, hsafe => by
    obtain ⟨hmax', hcap'⟩ := cap_step op hInv hmax hcap (hsafe op (List.mem_cons_self _ _))
    exact cap_foldl rest (step db op) (inv_step op hInv) hmax' hcap'
      (fun o ho => hsafe o (List.mem_cons_of_mem _ ho))

/-- The capacity invariant holds in every state reached by a trace whose
competitions are created with `max_members ≥ 1` and which never calls
`update_competition`. -/
theorem cap_reachable (ops : List Op) (hsafe : ∀ op ∈ ops, capSafe op) :
    CapInv (execTrace ops) :=
  (cap_foldl ops emptyDB inv_emptyDB (by intro c hc; simp [emptyDB] at hc)
    (by intro t ht; simp [emptyDB] at ht) hsafe).2

/-! ## Application-status monotonicity (P5 / I6) -/

/-- Status monotonicity between a state and its successor: rows whose
status is already decided (non-zero) survive unchanged, and every row of
the new state is an old row, a fresh pending row, or a previously
pending row moved to status 1 or 2. -/
def appMonotone (db db' : DB) : Prop :=
  (∀ a ∈ db.applications, a.status ≠ 0 → a ∈ db'.applications) ∧
  (∀ a' ∈ db'.applications, a' ∈ db.applications ∨ a'.status = 0 ∨
    ((a'.status = 1 ∨ a'.status = 2) ∧
      ({ a' with status := 0 } : Application) ∈ db.applications))

theorem appMonotone_refl (db : DB) : appMonotone db db :=
  ⟨fun _ ha _ => ha, fun _ ha' => Or.inl ha'⟩

theorem pendingFor_status {tid : Nat} {sid : String} {a : Application}
    (h : pendingFor tid sid a = true) : a.status = 0 := by
  simp [pendingFor] at h
  exact h.2

theorem app_reset_status {a : Application} (h : a.status = 0) :
    ({ tid := a.tid, student_id := a.student_id, status := 0 } : Application) = a := by
  cases a
  simp_all

theorem appMonotone_updateFirst {db : DB} {tid : Nat} {sid : String} {v : Nat}
    (hv : v = 1 ∨ v = 2) {rest : DB}
    (hrest : rest.applications
      = updateFirst (pendingFor tid sid) (fun a => { a with status := v }) db.applications) :
    appMonotone db rest := by
  constructor
  · intro a ha hstat
    rw [hrest]
    apply mem_updateFirst_of_neg ha
    simp [pendingFor, hstat]
  · intro a' ha'
    rw [hrest] at ha'
    rcases mem_updateFirst ha' with h1 | ⟨a, ha, hpend, rfl⟩
    · exact Or.inl h1
    · refine Or.inr (Or.inr ⟨by simpa using hv, ?_⟩)
      have h0 := pendingFor_status hpend
      have : ({ tid := a.tid, student_id := a.student_id, status := 0 } : Application) = a :=
        app_reset_status h0
      simpa [this] using ha

/-- The four operations that touch application rows keep decided rows
intact and move only pending rows, only to status 1 or 2. -/
theorem step_appMonotone (db : DB) (tid : Nat) (sid : String) :
    appMonotone db (step db (.applyToTeam sid tid)) ∧
    appMonotone db (step db (.accept tid sid)) ∧
    appMonotone db (step db (.reject tid sid)) ∧
    appMonotone db (step db (.confirm tid)) := by
  refine ⟨?_, ?_, ?_, ?_⟩
  · cases hrun : runOp (.applyToTeam sid tid) db with
    | error e =>
      have hs : step db (Op.applyToTeam sid tid) = db := by simp [step, hrun]
      rw [hs]; exact appMonotone_refl db
    | ok db' =>
      have hs : step db (Op.applyToTeam sid tid) = db' := by simp [step, hrun]
      rw [hs]
      obtain rfl := apply_to_team_ok hrun
      constructor
      · intro a ha _
        exact List.mem_append_left _ ha
      · intro a' ha'
        rcases List.mem_append.mp ha' with h1 | h1
        · exact Or.inl h1
        · simp at h1; subst h1
          exact Or.inr (Or.inl rfl)
  · cases hrun : runOp (.accept tid sid) db with
    | error e =>
      have hs : step db (Op.accept tid sid) = db := by simp [step, hrun]
      rw [hs]; exact appMonotone_refl db
    | ok db' =>
      have hs : step db (Op.accept tid sid) = db' := by simp [step, hrun]
      rw [hs]
      obtain ⟨team, comp, _, _, _, _, _, rfl⟩ := accept_team_member_ok hrun
      exact appMonotone_updateFirst (Or.inl rfl) rfl
  · cases hrun : runOp (.reject tid sid) db with
    | error e =>
      have hs : step db (Op.reject tid sid) = db := by simp [step, hrun]
      rw [hs]; exact appMonotone_refl db
    | ok db' =>
      have hs : step db (Op.reject tid sid) = db' := by simp [step, hrun]
      rw [hs]
      obtain rfl := reject_team_member_ok hrun
      exact appMonotone_updateFirst (Or.inr rfl) rfl
  · cases hrun : runOp (.confirm tid) db with
    | error e =>
      have hs : step db (Op.confirm tid) = db := by simp [step, hrun]
      rw [hs]; exact appMonotone_refl db
    | ok db' =>
      have hs : step db (Op.confirm tid) = db' := by simp [step, hrun]
      rw [hs]
      obtain ⟨team, comp, _, _, _, _, rfl⟩ := confirm_project_team_ok hrun
      constructor
      · intro a ha hstat
        have hfa : (if a.tid == tid && a.status == 0 then
            ({ a with status := 2 } : Application) else a) = a := by
          simp [hstat]
        exact List.mem_map.mpr ⟨a, ha, hfa⟩
      · intro a' ha'
        obtain ⟨a, ha, hfa⟩ := List.mem_map.mp ha'
        by_cases hcond : (a.tid == tid && a.status == 0) = true
        · rw [if_pos hcond] at hfa
          subst hfa
          have h0 : a.status = 0 := by
            simp at hcond
            exact hcond.2
          refine Or.inr (Or.inr ⟨Or.inr rfl, ?_⟩)
          have : ({ tid := a.tid, student_id := a.student_id, status := 0 } : Application) = a :=
            app_reset_status h0
          simpa [this] using ha
        · rw [if_neg hcond] at hfa
          subst hfa
          exact Or.inl ha

/-! ## Independence of `apply`/`accept` from the `participations` table -/

theorem apply_ignores_participations (us : List User) (cs : List Competition)
    (pas ps : List Participation) (ts : List Team) (ms : List Member)
    (aps : List Application) (np nt : Nat) (sid : String) (tid : Nat) :
    apply_to_team ⟨us, cs, ps, ts, ms, aps, np, nt⟩ sid tid
      = Except.map (fun d => { d with participations := ps })
          (apply_to_team ⟨us, cs, pas, ts, ms, aps, np, nt⟩ sid tid) := by
  simp only [apply_to_team, findUser, findTeam, findComp, findApplication,
    memberInComp, memberCount]
  cases hu : us.find? (fun u => u.student_id == sid) <;> simp only [hu]
  · rfl
  · cases ht : ts.find? (fun t => t.tid == tid) <;> simp only [ht]
    · rfl
    · rename_i team
      by_cases hc : team.completed <;> simp only [hc, if_true, if_false]
      · rfl
      · by_cases hm : (ms.any (memPred ts team.pid sid)) = true
        · simp only [hm, if_true]
          rfl
        · simp only [Bool.not_eq_true] at hm
          simp only [hm, Bool.false_eq_true, if_false]
          by_cases ha : (aps.find? fun a => a.student_id == sid && a.tid == tid).isSome
          · simp only [ha, if_true]
            rfl
          · simp only [ha, if_false]
            cases hcp : cs.find? (fun c => c.pid == team.pid) <;> simp only [hcp]
            · rfl
            · rename_i comp
              by_cases hf : comp.max_members ≤ ((ms.countP fun m => m.tid == tid : Nat) : Int)
                <;> simp only [hf, if_true, if_false]
              · rfl
              · rfl

theorem accept_ignores_participations (us : List User) (cs : List Competition)
    (pas ps : List Participation) (ts : List Team) (ms : List Member)
    (aps : List Application) (np nt : Nat) (tid : Nat) (sid : String) :
    accept_team_member ⟨us, cs, ps, ts, ms, aps, np, nt⟩ tid sid
      = Except.map (fun d => { d with participations := ps })
          (accept_team_member ⟨us, cs, pas, ts, ms, aps, np, nt⟩ tid sid) := by
  simp only [accept_team_member, findUser, findTeam, findComp, findPendingApplication,
    memberInComp, memberCount]
  cases ht : ts.find? (fun t => t.tid == tid) <;> simp only [ht]
  · rfl
  · rename_i team
    by_cases hc : team.completed <;> simp only [hc, if_true, if_false]
    · rfl
    · cases hu : us.find? (fun u => u.student_id == sid) <;> simp only [hu]
      · rfl
      · cases ha : aps.find? (pendingFor tid sid) <;> simp only [ha]
        · rfl
        · cases hcp : cs.find? (fun c => c.pid == team.pid) <;> simp only [hcp]
          · rfl
          · rename_i comp
            by_cases hf : comp.max_members ≤ ((ms.countP fun m => m.tid == tid : Nat) : Int)
              <;> simp only [hf, if_true, if_false]
            · rfl
            · by_cases hm : (ms.any (memPred ts team.pid sid)) = true
              · simp only [hm, if_true]
                rfl
              · simp only [Bool.not_eq_true] at hm
                simp only [hm, Bool.false_eq_true, if_false]
                rfl

/-- A user row with the given student id (profile fields irrelevant to
the claims). -/
def mkUser (sid : String) : User :=
  ⟨sid, "pw", "name", "010", "py", "INTJ", "jr", "F", "hi"⟩

/-! ## Concrete traces used by the claim theorems -/

instance : DecidablePred capSafe := fun op =>
  match op with
  | .signup _ => inferInstanceAs (Decidable True)
  | .createCompetition c => inferInstanceAs (Decidable (1 ≤ c.max_members))
  | .deleteCompetition _ => inferInstanceAs (Decidable True)
  | .updateCompetition _ _ => inferInstanceAs (Decidable False)
  | .participate _ _ _ => inferInstanceAs (Decidable True)
  | .cancelParticipation _ _ _ => inferInstanceAs (Decidable True)
  | .createTeam _ _ => inferInstanceAs (Decidable True)
  | .applyToTeam _ _ => inferInstanceAs (Decidable True)
  | .accept _ _ => inferInstanceAs (Decidable True)
  | .reject _ _ => inferInstanceAs (Decidable True)
  | .confirm _ => inferInstanceAs (Decidable True)
  | .leaveTeam _ _ => inferInstanceAs (Decidable True)

/-- Trace: competition (min 1, max 3), users A and B join the roster,
A opens team 1, B applies to it, then B opens team 2 (quota:
2 participants / 1 minimum = 2 > 1 team, so allowed).  B is now a member
of team 2 while still holding a pending application to team 1. -/
def c1Trace : List Op :=
  [ .createCompetition ⟨"c", "h", 0, 100, 200, 1, 3⟩,
    .signup (mkUser "A"), .signup (mkUser "B"),
    .participate 0 "A" 1, .participate 0 "B" 1,
    .createTeam "A" 1,
    .applyToTeam "B" 1,
    .createTeam "B" 1 ]

/-- Trace: competition created with max 1, A opens a team (1 member),
then the competition is updated to max 0. -/
def c2TraceA : List Op :=
  [ .createCompetition ⟨"c", "h", 0, 100, 200, 1, 1⟩,
    .signup (mkUser "A"),
    .createTeam "A" 1,
    .updateCompetition 1 ⟨"c", "h", 0, 100, 200, 1, 0⟩ ]

/-- Trace: competition created with min 0 and max 0; the quota check is
skipped (min = 0) and team creation inserts the leader unconditionally. -/
def c2TraceB : List Op :=
  [ .createCompetition ⟨"c", "h", 0, 100, 200, 0, 0⟩,
    .signup (mkUser "A"),
    .createTeam "A" 1 ]

/-- Trace: a capacity-safe run (competition max 3 ≥ 1, no update). -/
def c2SafeTrace : List Op :=
  [ .createCompetition ⟨"c", "h", 0, 100, 200, 2, 3⟩,
    .signup (mkUser "A"), .signup (mkUser "B"),
    .participate 0 "A" 1,
    .createTeam "A" 1,
    .applyToTeam "B" 1,
    .accept 1 "B" ]

/-- Trace: competition (min 1, max 2); team 1 holds A and B (full);
C's application is still pending and D has not applied. -/
def c2FullTrace : List Op :=
  [ .createCompetition ⟨"c", "h", 0, 100, 200, 1, 2⟩,
    .signup (mkUser "A"), .signup (mkUser "B"), .signup (mkUser "C"), .signup (mkUser "D"),
    .createTeam "A" 1,
    .applyToTeam "B" 1,
    .applyToTeam "C" 1,
    .accept 1 "B" ]

/-- Trace: a confirmable team (1 member ≥ min 1, not yet confirmed). -/
def c3Trace : List Op :=
  [ .createCompetition ⟨"c", "h", 0, 100, 200, 1, 3⟩,
    .signup (mkUser "A"),
    .createTeam "A" 1 ]

/-- Trace: confirmable team 1 with B's application still pending. -/
def c4Trace : List Op :=
  [ .createCompetition ⟨"c", "h", 0, 100, 200, 1, 3⟩,
    .signup (mkUser "A"), .signup (mkUser "B"),
    .createTeam "A" 1,
    .applyToTeam "B" 1 ]

/-- Trace: one participant, one existing team, min 2 — the quota
refuses a second team (1 // 2 = 0 ≤ 1). -/
def c5Trace : List Op :=
  [ .createCompetition ⟨"c", "h", 0, 100, 200, 2, 3⟩,
    .signup (mkUser "A"), .signup (mkUser "B"),
    .participate 0 "A" 1,
    .createTeam "A" 1 ]

/-- Trace: a competition with no team yet (bootstrap case). -/
def c5BootTrace : List Op :=
  [ .createCompetition ⟨"c", "h", 0, 100, 200, 2, 3⟩,
    .signup (mkUser "A") ]

/-- Trace: team 1 is confirmed; user B was never signed up. -/
def c6Trace : List Op :=
  [ .createCompetition ⟨"c", "h", 0, 100, 200, 1, 3⟩,
    .signup (mkUser "A"),
    .createTeam "A" 1,
    .confirm 1 ]

/-- Trace: A has joined the roster of a competition whose match_start is
day 100. -/
def c7Trace : List Op :=
  [ .createCompetition ⟨"c", "h", 0, 100, 200, 2, 3⟩,
    .signup (mkUser "A"),
    .participate 0 "A" 1 ]

/-- Trace: B applied to team 1 and was rejected. -/
def c8Trace : List Op :=
  [ .createCompetition ⟨"c", "h", 0, 100, 200, 1, 3⟩,
    .signup (mkUser "A"), .signup (mkUser "B"),
    .createTeam "A" 1,
    .applyToTeam "B" 1,
    .reject 1 "B" ]

/-- Trace: B's application to team 1 accepted, C's still pending. -/
def c9Trace : List Op :=
  [ .createCompetition ⟨"c", "h", 0, 100, 200, 1, 3⟩,
    .signup (mkUser "A"), .signup (mkUser "B"), .signup (mkUser "C"),
    .createTeam "A" 1,
    .applyToTeam "B" 1,
    .applyToTeam "C" 1,
    .accept 1 "B" ]

/-! ## The claim theorems -/

/-- Claim C1 — cross-team exclusivity: in every reachable state every
user holds at most one `Member` row across the teams of any one
competition, and the only two operations that insert `Member` rows,
`create_team` and `accept_team_member`, refuse with `AlreadyOnTeam`
whenever the user already holds a `Member` row in that competition and
every check preceding the exclusivity check passes. -/
theorem claim_C1_cross_team_exclusivity :
    (∀ db : DB, Reachable db → ∀ pid sid, memRowCount db pid sid ≤ 1) ∧
    (∀ (db : DB) (sid : String) (pid : Nat) (u : User) (c : Competition),
      findUser db sid = some u → findComp db pid = some c →
      memberInComp db pid sid = true →
      create_team db sid pid = .error .AlreadyOnTeam) ∧
    (∀ (db : DB) (tid : Nat) (sid : String) (team : Team) (u : User)
      (a : Application) (comp : Competition),
      findTeam db tid = some team → team.completed = false →
      findUser db sid = some u → findPendingApplication db tid sid = some a →
      findComp db team.pid = some comp →
      (memberCount db tid : Int) < comp.max_members →
      memberInComp db team.pid sid = true →
      accept_team_member db tid sid = .error .AlreadyOnTeam) := by
  refine ⟨?_, ?_, ?_⟩
  · intro db h pid sid
    exact (inv_reachable h).exclusive pid sid
  · intro db sid pid u c hU hC hM
    unfold create_team
    simp [hU, hC, hM]
  · intro db tid sid team u a comp hT hCo hU hP hFC hlt hM
    unfold accept_team_member
    simp [hT, hCo, hU, hP, hFC, not_le.mpr hlt, hM]

theorem claim_C1_witness :
    memRowCount (execTrace c1Trace) 1 "B" ≤ 1 ∧
    create_team (execTrace c1Trace) "A" 1 = .error .AlreadyOnTeam ∧
    accept_team_member (execTrace c1Trace) 1 "B" = .error .AlreadyOnTeam := by
  refine ⟨claim_C1_cross_team_exclusivity.1 (execTrace c1Trace) ⟨c1Trace, rfl⟩ 1 "B",
    claim_C1_cross_team_exclusivity.2.1 (execTrace c1Trace) "A" 1 (mkUser "A")
      ⟨1, "c", "h", 0, 100, 200, 1, 3⟩ (by decide) (by decide) (by decide),
    claim_C1_cross_team_exclusivity.2.2 (execTrace c1Trace) 1 "B" ⟨1, "A", 1, false⟩
      (mkUser "B") ⟨1, "B", 0⟩ ⟨1, "c", "h", 0, 100, 200, 1, 3⟩
      (by decide) (by decide) (by decide) (by decide) (by decide) (by decide) (by decide)⟩

/-- Claim C2, counterexample: the capacity bound `member count ≤
max_members` is not an invariant of all operation sequences.  Trace A
creates a one-member team and then updates the competition's
`max_members` to 0 (`update_competition` re-checks nothing); trace B
creates the competition with `max_members = 0` directly, and
`create_team` inserts the leader without any capacity check. -/
theorem claim_C2_counterexample :
    ¬ CapInv (execTrace c2TraceA) ∧ ¬ CapInv (execTrace c2TraceB) := by
  constructor
  · intro hcap
    have h := hcap ⟨1, "A", 1, false⟩ (by decide) ⟨1, "c", "h", 0, 100, 200, 1, 0⟩ (by decide)
    have h2 : memberCount (execTrace c2TraceA) 1 = 1 := by decide
    rw [h2] at h
    exact absurd h (by decide)
  · intro hcap
    have h := hcap ⟨1, "A", 1, false⟩ (by decide) ⟨1, "c", "h", 0, 100, 200, 0, 0⟩ (by decide)
    have h2 : memberCount (execTrace c2TraceB) 1 = 1 := by decide
    rw [h2] at h
    exact absurd h (by decide)

/-- Claim C2, amended — capacity: along any trace whose competitions are
created with `max_members ≥ 1` and which never calls
`update_competition`, every team's member count stays within its
competition's `max_members`; and `accept_team_member` / `apply_to_team`
fail with `TeamFull` when the count has already reached `max_members`
and every preceding check passes. -/
theorem claim_C2_capacity_amended :
    (∀ ops : List Op, (∀ op ∈ ops, capSafe op) → CapInv (execTrace ops)) ∧
    (∀ (db : DB) (tid : Nat) (sid : String) (team : Team) (u : User)
      (a : Application) (comp : Competition),
      findTeam db tid = some team → team.completed = false →
      findUser db sid = some u → findPendingApplication db tid sid = some a →
      findComp db team.pid = some comp →
      comp.max_members ≤ (memberCount db tid : Int) →
      accept_team_member db tid sid = .error .TeamFull) ∧
    (∀ (db : DB) (sid : String) (tid : Nat) (u : User) (team : Team) (comp : Competition),
      findUser db sid = some u → findTeam db tid = some team →
      team.completed = false → memberInComp db team.pid sid = false →
      findApplication db sid tid = none →
      findComp db team.pid = some comp →
      comp.max_members ≤ (memberCount db tid : Int) →
      apply_to_team db sid tid = .error .TeamFull) := by
  refine ⟨cap_reachable, ?_, ?_⟩
  · intro db tid sid team u a comp hT hCo hU hP hFC hfull
    unfold accept_team_member
    simp [hT, hCo, hU, hP, hFC, hfull]
  · intro db sid tid u team comp hU hT hCo hM hA hFC hfull
    unfold apply_to_team
    simp [hU, hT, hCo, hM, hA, hFC, hfull]

theorem claim_C2_witness :
    CapInv (execTrace c2SafeTrace) ∧
    accept_team_member (execTrace c2FullTrace) 1 "C" = .error .TeamFull ∧
    apply_to_team (execTrace c2FullTrace) "D" 1 = .error .TeamFull := by
  refine ⟨claim_C2_capacity_amended.1 c2SafeTrace (by decide),
    claim_C2_capacity_amended.2.1 (execTrace c2FullTrace) 1 "C" ⟨1, "A", 1, false⟩
      (mkUser "C") ⟨1, "C", 0⟩ ⟨1, "c", "h", 0, 100, 200, 1, 2⟩
      (by decide) (by decide) (by decide) (by decide) (by decide) (by decide),
    claim_C2_capacity_amended.2.2 (execTrace c2FullTrace) "D" 1 (mkUser "D")
      ⟨1, "A", 1, false⟩ ⟨1, "c", "h", 0, 100, 200, 1, 2⟩
      (by decide) (by decide) (by decide) (by decide) (by decide) (by decide) (by decide)⟩

/-- Claim C3 — confirmation gate: `confirm_project_team` succeeds exactly
when the team exists, is not yet completed, and its member count reaches
its competition's `min_members`; the failure kinds are `NotFound`,
`AlreadyConfirmed` and `InsufficientMembers` in that case order; on
success the team's `completed` flag is set, every pending application of
the team becomes rejected, all other applications survive unchanged, and
the member rows are untouched. -/
theorem claim_C3_confirmation_gate (db : DB) (tid : Nat) :
    ((∃ db', confirm_project_team db tid = .ok db') ↔
      (∃ t, findTeam db tid = some t ∧ t.completed = false ∧
        ∃ c, findComp db t.pid = some c ∧
          c.min_members ≤ (memberCount db tid : Int))) ∧
    (findTeam db tid = none → confirm_project_team db tid = .error .NotFound) ∧
    (∀ t, findTeam db tid = some t → t.completed = true →
      confirm_project_team db tid = .error .AlreadyConfirmed) ∧
    (∀ t c, findTeam db tid = some t → t.completed = false →
      findComp db t.pid = some c → (memberCount db tid : Int) < c.min_members →
      confirm_project_team db tid = .error .InsufficientMembers) ∧
    (∀ db', confirm_project_team db tid = .ok db' →
      (∀ t, findTeam db tid = some t →
        findTeam db' tid = some { t with completed := true }) ∧
      (∀ a ∈ db.applications, a.tid = tid → a.status = 0 →
        ({ a with status := 2 } : Application) ∈ db'.applications) ∧
      (∀ a ∈ db.applications, ¬(a.tid = tid ∧ a.status = 0) → a ∈ db'.applications) ∧
      db'.members = db.members) := by
  refine ⟨⟨?_, ?_⟩, ?_, ?_, ?_, ?_⟩
  · rintro ⟨db', hok⟩
    obtain ⟨t, c, hT, hCo, hFC, hmin, rfl⟩ := confirm_project_team_ok hok
    exact ⟨t, hT, hCo, c, hFC, hmin⟩
  · rintro ⟨t, hT, hCo, c, hFC, hmin⟩
    refine ⟨confirm_cascade (confirm_first_commit db tid) tid, ?_⟩
    unfold confirm_project_team
    simp [hT, hCo, hFC, not_lt.mpr hmin]
  · intro h
    unfold confirm_project_team
    simp [h]
  · intro t hT hCo
    unfold confirm_project_team
    simp [hT, hCo]
  · intro t c hT hCo hFC hlt
    unfold confirm_project_team
    simp [hT, hCo, hFC, hlt]
  · intro db' hok
    obtain ⟨t0, c0, hT0, hCo0, hFC0, hmin0, rfl⟩ := confirm_project_team_ok hok
    refine ⟨?_, ?_, ?_, rfl⟩
    · intro t hT
      show (updateFirst (fun t1 : Team => t1.tid == tid)
          (fun t1 : Team => { t1 with completed := true })
          db.teams).find? (fun t1 : Team => t1.tid == tid)
        = some { t with completed := true }
      rw [updateFirst_find?_self (fun t1 : Team => t1.tid == tid)
        (fun t1 : Team => { t1 with completed := true }) (fun a => rfl)]
      unfold findTeam at hT
      rw [hT]
      rfl
    · intro a ha hatid hast
      refine List.mem_map.mpr ⟨a, ha, ?_⟩
      simp [hatid, hast]
    · intro a ha hnot
      refine List.mem_map.mpr ⟨a, ha, ?_⟩
      have : (a.tid == tid && a.status == 0) = false := by
        rcases not_and_or.mp hnot with h1 | h1 <;> simp [h1]
      simp [this]

theorem claim_C3_witness :
    (∃ db', confirm_project_team (execTrace c3Trace) 1 = Except.ok db') ∧
    confirm_project_team (execTrace c6Trace) 1 = .error .AlreadyConfirmed := by
  refine ⟨(claim_C3_confirmation_gate (execTrace c3Trace) 1).1.mpr
    ⟨⟨1, "A", 1, false⟩, by decide, by decide,
      ⟨1, "c", "h", 0, 100, 200, 1, 3⟩, by decide, by decide⟩,
    (claim_C3_confirmation_gate (execTrace c6Trace) 1).2.2.1 ⟨1, "A", 1, true⟩
      (by decide) (by decide)⟩

/-- Claim C4 — confirmation atomicity fails: `confirm_project_team`
commits in TWO transactions (`main.py` commits at line 401 and again at
line 404).  On the failing input below the operation takes the success
path, so the state after the first commit is persisted durably before
the cascade runs; that intermediate state has the team completed while
B's application is still pending — exactly the state the claim says can
never be persisted.  A failure between the two commits leaves it. -/
theorem claim_C4_confirm_two_commits :
    confirm_project_team (execTrace c4Trace) 1
      = .ok (confirm_cascade (confirm_first_commit (execTrace c4Trace) 1) 1) ∧
    (findTeam (confirm_first_commit (execTrace c4Trace) 1) 1).map Team.completed
      = some true ∧
    findApplication (confirm_first_commit (execTrace c4Trace) 1) "B" 1
      = some ⟨1, "B", 0⟩ := by
  decide

/-- Claim C5 — team-opening quota: with the user and competition present
and the creator not yet on a team of the competition, `create_team`
fails `QuotaExceeded` exactly when `min_members > 0`, at least one team
exists, and `P // min_members ≤ T` (Python floor division, `Int.ediv`);
with no team yet it always succeeds. -/
theorem claim_C5_team_opening_quota (db : DB) (sid : String) (pid : Nat)
    (u : User) (c : Competition)
    (hU : findUser db sid = some u) (hC : findComp db pid = some c)
    (hM : memberInComp db pid sid = false) :
    (create_team db sid pid = .error .QuotaExceeded ↔
      (0 < c.min_members ∧ 0 < teamCount db pid ∧
        Int.ediv (participationCount db pid) c.min_members ≤ (teamCount db pid : Int))) ∧
    (teamCount db pid = 0 → ∃ db', create_team db sid pid = Except.ok db') := by
  have key : create_team db sid pid =
      (if 0 < c.min_members ∧
          (Int.ediv (participationCount db pid) c.min_members ≤ (teamCount db pid : Int) ∧
           0 < teamCount db pid)
       then Except.error Err.QuotaExceeded
       else Except.ok { db with
          teams := db.teams ++ [⟨db.nextTid, sid, pid, false⟩],
          members := db.members ++ [⟨db.nextTid, sid⟩],
          nextTid := db.nextTid + 1 }) := by
    unfold create_team
    simp [hU, hC, hM]
  constructor
  · rw [key]
    by_cases hq : (0 < c.min_members ∧
        (Int.ediv (participationCount db pid) c.min_members ≤ (teamCount db pid : Int) ∧
         0 < teamCount db pid))
    · rw [if_pos hq]
      exact ⟨fun _ => ⟨hq.1, hq.2.2, hq.2.1⟩, fun _ => rfl⟩
    · rw [if_neg hq]
      refine ⟨fun h => absurd h (by simp), fun hr => absurd ⟨hr.1, hr.2.2, hr.2.1⟩ hq⟩
  · intro hT0
    rw [key, if_neg (by simp [hT0])]
    exact ⟨_, rfl⟩

theorem claim_C5_witness :
    create_team (execTrace c5Trace) "B" 1 = .error .QuotaExceeded ∧
    (∃ db', create_team (execTrace c5BootTrace) "A" 1 = Except.ok db') := by
  refine ⟨(claim_C5_team_opening_quota (execTrace c5Trace) "B" 1 (mkUser "B")
      ⟨1, "c", "h", 0, 100, 200, 2, 3⟩ (by decide) (by decide) (by decide)).1.mpr
      (by decide),
    (claim_C5_team_opening_quota (execTrace c5BootTrace) "A" 1 (mkUser "A")
      ⟨1, "c", "h", 0, 100, 200, 2, 3⟩ (by decide) (by decide) (by decide)).2
      (by decide)⟩

/-- Claim C6, counterexample: the claim's failure conditions are not
checked in the order it lists them — it says a missing applicant yields
`NotFound`, but on a completed team with a missing applicant the code
returns `TeamLocked` (`main.py` checks `completed` at line 319, before
the applicant lookup at line 322). -/
theorem claim_C6_counterexample :
    findUser (execTrace c6Trace) "B" = none ∧
    accept_team_member (execTrace c6Trace) 1 "B" = .error .TeamLocked ∧
    accept_team_member (execTrace c6Trace) 1 "B" ≠ .error .NotFound := by
  decide

/-- Claim C6, amended — accept behaviour with the code's check order:
team existence (`NotFound`), then `TeamLocked`, then applicant existence
(`NotFound`), then pending application (`NotFound`), then `TeamFull`,
then `AlreadyOnTeam`; when all checks pass, exactly one `Member` row is
inserted and the pending application's status becomes 1, in one
commit. -/
theorem claim_C6_accept_amended (db : DB) (tid : Nat) (sid : String) :
    (findTeam db tid = none → accept_team_member db tid sid = .error .NotFound) ∧
    (∀ team, findTeam db tid = some team → team.completed = true →
      accept_team_member db tid sid = .error .TeamLocked) ∧
    (∀ team, findTeam db tid = some team → team.completed = false →
      findUser db sid = none → accept_team_member db tid sid = .error .NotFound) ∧
    (∀ team u, findTeam db tid = some team → team.completed = false →
      findUser db sid = some u → findPendingApplication db tid sid = none →
      accept_team_member db tid sid = .error .NotFound) ∧
    (∀ team u a comp, findTeam db tid = some team → team.completed = false →
      findUser db sid = some u → findPendingApplication db tid sid = some a →
      findComp db team.pid = some comp →
      comp.max_members ≤ (memberCount db tid : Int) →
      accept_team_member db tid sid = .error .TeamFull) ∧
    (∀ team u a comp, findTeam db tid = some team → team.completed = false →
      findUser db sid = some u → findPendingApplication db tid sid = some a →
      findComp db team.pid = some comp →
      (memberCount db tid : Int) < comp.max_members →
      memberInComp db team.pid sid = true →
      accept_team_member db tid sid = .error .AlreadyOnTeam) ∧
    (∀ team u a comp, findTeam db tid = some team → team.completed = false →
      findUser db sid = some u → findPendingApplication db tid sid = some a →
      findComp db team.pid = some comp →
      (memberCount db tid : Int) < comp.max_members →
      memberInComp db team.pid sid = false →
      accept_team_member db tid sid = Except.ok { db with
        members := db.members ++ [⟨tid, sid⟩],
        applications := updateFirst (pendingFor tid sid)
          (fun a => { a with status := 1 }) db.applications }) := by
  refine ⟨?_, ?_, ?_, ?_, ?_, ?_, ?_⟩
  · intro h
    unfold accept_team_member
    simp [h]
  · intro team hT hCo
    unfold accept_team_member
    simp [hT, hCo]
  · intro team hT hCo hU
    unfold accept_team_member
    simp [hT, hCo, hU]
  · intro team u hT hCo hU hP
    unfold accept_team_member
    simp [hT, hCo, hU, hP]
  · intro team u a comp hT hCo hU hP hFC hfull
    unfold accept_team_member
    simp [hT, hCo, hU, hP, hFC, hfull]
  · intro team u a comp hT hCo hU hP hFC hlt hM
    unfold accept_team_member
    simp [hT, hCo, hU, hP, hFC, not_le.mpr hlt, hM]
  · intro team u a comp hT hCo hU hP hFC hlt hM
    unfold accept_team_member
    simp [hT, hCo, hU, hP, hFC, not_le.mpr hlt, hM]

theorem claim_C6_witness :
    accept_team_member (execTrace c6Trace) 1 "B" = .error .TeamLocked ∧
    accept_team_member (execTrace c2SafeTrace) 1 "B"
      = .error .NotFound := by
  refine ⟨(claim_C6_accept_amended (execTrace c6Trace) 1 "B").2.1
      ⟨1, "A", 1, true⟩ (by decide) (by decide),
    (claim_C6_accept_amended (execTrace c2SafeTrace) 1 "B").2.2.2.1
      ⟨1, "A", 1, false⟩ (mkUser "B") (by decide) (by decide) (by decide) (by decide)⟩

/-- Claim C7 — deadline asymmetry: given the user and competition exist,
roster join fails `DeadlinePassed` exactly when `today > match_start`
(strict), while — given the participation row and competition exist —
roster leave fails `DeadlinePassed` exactly when `today ≥ match_start`;
so on `match_start` itself joining is still possible and leaving is
not. -/
theorem claim_C7_deadline_asymmetry (db : DB) (today : Int) (sid : String) (pid : Nat) :
    (∀ u c, findUser db sid = some u → findComp db pid = some c →
      (participate db today sid pid = .error .DeadlinePassed ↔ c.match_start < today)) ∧
    (∀ p c, findParticipation db sid pid = some p → findComp db pid = some c →
      (cancel_participation db today sid pid = .error .DeadlinePassed ↔
        c.match_start ≤ today)) := by
  constructor
  · intro u c hU hC
    unfold participate
    by_cases hd : c.match_start < today
    · simp [hU, hC, hd]
    · by_cases hj : (findParticipation db sid pid).isSome
      · simp [hU, hC, hd, hj]
      · simp [hU, hC, hd, hj]
  · intro p c hP hC
    unfold cancel_participation
    by_cases hd : c.match_start ≤ today
    · simp [hP, hC, hd]
    · simp [hP, hC, hd]

theorem claim_C7_witness :
    cancel_participation (execTrace c7Trace) 100 "A" 1 = .error .DeadlinePassed ∧
    ¬ (participate (execTrace c7Trace) 100 "A" 1 = .error .DeadlinePassed) := by
  refine ⟨((claim_C7_deadline_asymmetry (execTrace c7Trace) 100 "A" 1).2 ⟨"A", 1⟩
      ⟨1, "c", "h", 0, 100, 200, 2, 3⟩ (by decide) (by decide)).mpr (by decide),
    fun h => absurd (((claim_C7_deadline_asymmetry (execTrace c7Trace) 100 "A" 1).1
      (mkUser "A") ⟨1, "c", "h", 0, 100, 200, 2, 3⟩ (by decide) (by decide)).mp h)
      (by decide)⟩

/-- Claim C8 — no re-application: given the user and team exist, the
team is not completed and the user holds no `Member` row in the team's
competition, `apply_to_team` fails `AlreadyApplied` whenever ANY
application row for the pair exists, whatever its status. -/
theorem claim_C8_no_reapplication (db : DB) (sid : String) (tid : Nat)
    (u : User) (team : Team) (a : Application)
    (hU : findUser db sid = some u) (hT : findTeam db tid = some team)
    (hCo : team.completed = false) (hM : memberInComp db team.pid sid = false)
    (hA : findApplication db sid tid = some a) :
    apply_to_team db sid tid = .error .AlreadyApplied := by
  unfold apply_to_team
  simp [hU, hT, hCo, hM, hA]

theorem claim_C8_witness :
    apply_to_team (execTrace c8Trace) "B" 1 = .error .AlreadyApplied :=
  claim_C8_no_reapplication (execTrace c8Trace) "B" 1 (mkUser "B")
    ⟨1, "A", 1, false⟩ ⟨1, "B", 2⟩
    (by decide) (by decide) (by decide) (by decide) (by decide)

/-- Claim C9 — monotone application status: each of the four operations
that touch application rows (apply, accept, reject, confirm's cascade)
keeps every row whose status is already 1 or 2 unchanged, and any row it
does change was pending (status 0) before and is 1 or 2 after; new rows
are created pending. -/
theorem claim_C9_monotone_status (db : DB) (tid : Nat) (sid : String) :
    appMonotone db (step db (.applyToTeam sid tid)) ∧
    appMonotone db (step db (.accept tid sid)) ∧
    appMonotone db (step db (.reject tid sid)) ∧
    appMonotone db (step db (.confirm tid)) :=
  step_appMonotone db tid sid

theorem claim_C9_witness :
    (⟨1, "B", 1⟩ : Application) ∈ (step (execTrace c9Trace) (.reject 1 "C")).applications :=
  ((claim_C9_monotone_status (execTrace c9Trace) 1 "C").2.2.1).1 ⟨1, "B", 1⟩
    (by decide) (by decide)

/-- Claim C10 — team membership is independent of roster participation:
on two states that differ only in the `participations` table,
`apply_to_team` and `accept_team_member` produce the same outcome and
the same effects (neither reads nor writes `Participation` rows); in
particular a user who never joined the roster can apply and be
accepted. -/
theorem claim_C10_participation_independence :
    ∀ (us : List User) (cs : List Competition) (pas ps : List Participation)
      (ts : List Team) (ms : List Member) (aps : List Application) (np nt : Nat)
      (sid : String) (tid : Nat),
      (apply_to_team ⟨us, cs, ps, ts, ms, aps, np, nt⟩ sid tid
        = Except.map (fun d => { d with participations := ps })
            (apply_to_team ⟨us, cs, pas, ts, ms, aps, np, nt⟩ sid tid)) ∧
      (accept_team_member ⟨us, cs, ps, ts, ms, aps, np, nt⟩ tid sid
        = Except.map (fun d => { d with participations := ps })
            (accept_team_member ⟨us, cs, pas, ts, ms, aps, np, nt⟩ tid sid)) :=
  fun us cs pas ps ts ms aps np nt sid tid =>
    ⟨apply_ignores_participations us cs pas ps ts ms aps np nt sid tid,
     accept_ignores_participations us cs pas ps ts ms aps np nt tid sid⟩

end TeamMaker
